import Mathlib

/-
  Verification development for the zombie-hunter cloud-cleanup tool
  (source: src/main.py). The Python program is embedded shallowly:
  cloud API calls and inference-service calls are modelled as explicit
  inputs (success or error outcomes), dictionaries produced by
  json.loads are modelled by an inductive Json type, and every Python
  function of interest becomes a total Lean function whose exceptional
  exits are explicit constructors. Monetary amounts are exact rationals;
  the binary floating-point representation used by Python is abstracted
  to exact decimal arithmetic with round-half-to-even, which is the
  rounding rule of the round builtin.
-/

set_option maxRecDepth 16384

namespace ZombieHunter

/-- Json values as produced by json.loads. Model restrictions, noted
here once: numbers are integers (the schema requested from the model
uses only integer resource numbers; a fractional or exponent-bearing
number makes the parse fail in the model, which lands in the same
failed-parse branch the program uses for every malformed payload), and
unicode escape sequences in strings are not decoded. -/
inductive Json where
  | null : Json
  | bool : Bool → Json
  | num : Int → Json
  | str : String → Json
  | arr : List Json → Json
  | obj : List (String × Json) → Json
deriving Repr

/-- Lookup of a key in an object field list. json.loads keeps the last
value bound to a duplicated key, so the reversed list is searched. -/
def objGet (fields : List (String × Json)) (k : String) : Option Json :=
  fields.reverse.lookup k

/-- Whitespace recognized by the JSON grammar. -/
def isWs (c : Char) : Bool :=
  c = ' ' || c = '\t' || c = '\n' || c = '\r'

/-- Drop leading JSON whitespace. -/
def skipWs : List Char → List Char
  | [] => []
  | c :: cs => if isWs c then skipWs cs else c :: cs

/-- Parse a run of decimal digits into a natural number, rejecting an
empty run and a leading zero followed by more digits. -/
def parseDigits : List Char → Option (Nat × List Char)
  | cs =>
    let ds := cs.takeWhile Char.isDigit
    let rest := cs.dropWhile Char.isDigit
    match ds with
    | [] => none
    | ['0'] => some (0, rest)
    | '0' :: _ :: _ => none
    | _ => some (ds.foldl (fun a c => a * 10 + (c.toNat - 48)) 0, rest)

/-- Decode a single-character escape sequence in a JSON string. -/
def escapeChar (c : Char) : Option Char :=
  if c = '"' then some '"'
  else if c = '\\' then some '\\'
  else if c = '/' then some '/'
  else if c = 'n' then some '\n'
  else if c = 't' then some '\t'
  else if c = 'r' then some '\r'
  else if c = 'b' then some (Char.ofNat 8)
  else if c = 'f' then some (Char.ofNat 12)
  else none

/-- Parse the body of a JSON string after the opening quote. Raw
control characters are rejected, as json.loads does in strict mode. -/
def parseStrBody : List Char → List Char → Option (String × List Char)
  | acc, cs =>
    match cs with
    | [] => none
    | '"' :: r => some (String.mk acc.reverse, r)
    | '\\' :: e :: r =>
      match escapeChar e with
      | some c => parseStrBody (c :: acc) r
      | none => none
    | '\\' :: [] => none
    | c :: r => if c.toNat < 32 then none else parseStrBody (c :: acc) r

mutual

/-- Parse one JSON value from the head of the character list. Fuel
bounds the recursion depth; the top-level wrapper supplies enough fuel
for any input of the given length. -/
def parseVal : Nat → List Char → Option (Json × List Char)
  | 0, _ => none
  | fuel + 1, cs =>
    match cs with
    | [] => none
    | c :: rest =>
      if c = '\x7b' then parseObjTail fuel (skipWs rest) []
      else if c = '[' then parseArrTail fuel (skipWs rest) []
      else if c = '"' then
        match parseStrBody [] rest with
        | some (s, r) => some (.str s, r)
        | none => none
      else if c = '-' then
        match parseDigits rest with
        | some (n, r) => some (.num (-(n : Int)), r)
        | none => none
      else if c.isDigit then
        match parseDigits (c :: rest) with
        | some (n, r) => some (.num (n : Int), r)
        | none => none
      else if c = 't' then
        match rest with
        | 'r' :: 'u' :: 'e' :: r => some (.bool true, r)
        | _ => none
      else if c = 'f' then
        match rest with
        | 'a' :: 'l' :: 's' :: 'e' :: r => some (.bool false, r)
        | _ => none
      else if c = 'n' then
        match rest with
        | 'u' :: 'l' :: 'l' :: r => some (.null, r)
        | _ => none
      else none

/-- Parse the members of an object after the opening brace, given the
accumulated fields. -/
def parseObjTail : Nat → List Char → List (String × Json) →
    Option (Json × List Char)
  | 0, _, _ => none
  | fuel + 1, cs, acc =>
    match cs with
    | '\x7d' :: r =>
      match acc with
      | [] => some (.obj [], r)
      | _ => none
    | '"' :: rest =>
      match parseStrBody [] rest with
      | some (k, r1) =>
        match skipWs r1 with
        | ':' :: r2 =>
          match parseVal fuel (skipWs r2) with
          | some (v, r3) =>
            match skipWs r3 with
            | ',' :: r4 => parseObjTail fuel (skipWs r4) (acc ++ [(k, v)])
            | '\x7d' :: r4 => some (.obj (acc ++ [(k, v)]), r4)
            | _ => none
          | none => none
        | _ => none
      | none => none
    | _ => none

/-- Parse the elements of an array after the opening bracket, given the
accumulated elements. -/
def parseArrTail : Nat → List Char → List Json → Option (Json × List Char)
  | 0, _, _ => none
  | fuel + 1, cs, acc =>
    match cs with
    | ']' :: r =>
      match acc with
      | [] => some (.arr [], r)
      | _ => none
    | _ =>
      match parseVal fuel cs with
      | some (v, r1) =>
        match skipWs r1 with
        | ',' :: r2 => parseArrTail fuel (skipWs r2) (acc ++ [v])
        | ']' :: r2 => some (.arr (acc ++ [v]), r2)
        | _ => none
      | none => none

end

/-- Model of json.loads: parse a complete JSON document, requiring that
only whitespace remains after the value. -/
def jsonParse (s : String) : Option Json :=
  match parseVal (2 * s.length + 8) (skipWs s.toList) with
  | some (v, r) => if (skipWs r).isEmpty then some v else none
  | none => none

/-- Risk-analysis sub-record attached by the merge step. The merge
stores whatever Json values the response carried under risk_score and
reason, so both fields are Json; the program itself always writes
string values for its own defaults. -/
structure AiAnalysis where
  risk_score : Json
  reason : Json
deriving Repr

/-- One zombie-resource record, the dictionary shape built by the two
scanners. Kind-specific keys (size for volumes, public_ip for elastic
IPs) are optional, mirroring key presence in the Python dictionary, and
ai_analysis is absent until the analyzer attaches it. -/
structure Zombie where
  resource_type : String
  resource_id : String
  size : Option Nat
  public_ip : Option String
  region : String
  tags : List (String × String)
  cost_estimate : ℚ
  ai_analysis : Option AiAnalysis
deriving Repr

/-- Replace the ai_analysis field of a record. -/
def withAi (z : Zombie) (a : Option AiAnalysis) : Zombie :=
  { z with ai_analysis := a }

/-- Round a rational to the nearest integer, ties to even: the rounding
rule of the Python round builtin, on exact decimal inputs. -/
def roundHalfEven (q : ℚ) : ℤ :=
  if q - (q.floor : ℚ) < 1 / 2 then q.floor
  else if (1 : ℚ) / 2 < q - (q.floor : ℚ) then q.floor + 1
  else if q.floor % 2 = 0 then q.floor else q.floor + 1

/-- Round to 2 decimal places, as round(x, 2) does. -/
def round2 (q : ℚ) : ℚ :=
  (roundHalfEven (q * 100) : ℚ) / 100

/-- Rate table of ZombieHunter._estimate_ebs_cost: dollars per GB per
month, keyed by volume type. -/
def pricing : List (String × ℚ) :=
  [("gp2", 0.10), ("gp3", 0.08), ("io1", 0.125), ("io2", 0.125),
   ("st1", 0.045), ("sc1", 0.025), ("standard", 0.05)]

/-- ZombieHunter._estimate_ebs_cost: size times the per-type rate with
a default of 0.10 for unknown types, rounded to 2 decimals. -/
def estimate_ebs_cost (size_gb : Nat) (volume_type : String) : ℚ :=
  round2 ((size_gb : ℚ) * ((pricing.lookup volume_type).getD 0.10))

/-- ZombieHunter._estimate_eip_cost: the flat monthly estimate for an
idle elastic IP. -/
def estimate_eip_cost : ℚ := 3.65

/-- One volume as returned by the describe-volumes API call (already
filtered server-side to status available). -/
structure Volume where
  volume_id : String
  size : Nat
  volume_type : String
  tags : List (String × String)
deriving Repr

/-- One address as returned by the describe-addresses API call. The two
optional fields model presence of the InstanceId and NetworkInterfaceId
keys. -/
structure Address where
  allocation_id : String
  public_ip : String
  instance_id : Option String
  network_interface_id : Option String
  tags : List (String × String)
deriving Repr

/-- An API call outcome: a ClientError (the only exception class the
scanners catch) or the returned payload. -/
abbrev ApiResp (α : Type) := Except String α

/-- Record built by the volume scanner for one available volume. -/
def volRecord (region : String) (v : Volume) : Zombie :=
  { resource_type := "ebs_volume"
    resource_id := v.volume_id
    size := some v.size
    public_ip := none
    region := region
    tags := v.tags
    cost_estimate := estimate_ebs_cost v.size v.volume_type
    ai_analysis := none }

/-- ZombieHunter.find_unattached_volumes, with the API response passed
in explicitly: on ClientError the function logs and returns the empty
list, otherwise it emits one record per returned volume. -/
def find_unattached_volumes (region : String)
    (resp : ApiResp (List Volume)) : List Zombie :=
  match resp with
  | .error _ => []
  | .ok vs => vs.map (volRecord region)

/-- Idleness test of the EIP scanner: the address dictionary has
neither an InstanceId key nor a NetworkInterfaceId key. -/
def isIdle (a : Address) : Bool :=
  a.instance_id.isNone && a.network_interface_id.isNone

/-- Record built by the EIP scanner for one idle address. -/
def eipRecord (region : String) (a : Address) : Zombie :=
  { resource_type := "elastic_ip"
    resource_id := a.allocation_id
    size := none
    public_ip := some a.public_ip
    region := region
    tags := a.tags
    cost_estimate := estimate_eip_cost
    ai_analysis := none }

/-- ZombieHunter.find_idle_elastic_ips, with the API response passed in
explicitly: on ClientError it logs and returns the empty list,
otherwise it keeps exactly the idle addresses. -/
def find_idle_elastic_ips (region : String)
    (resp : ApiResp (List Address)) : List Zombie :=
  match resp with
  | .error _ => []
  | .ok addrs => (addrs.filter isIdle).map (eipRecord region)

/-- Responses the cloud returns for one region: one volume-list call
and one address-list call. -/
structure RegionResp where
  vols : ApiResp (List Volume)
  addrs : ApiResp (List Address)

/-- ZombieHunter.hunt_zombies over an explicit environment mapping each
region to its API responses: both scanners run per region and all
results are concatenated in region order. -/
def hunt_zombies (regions : List String) (env : String → RegionResp) :
    List Zombie :=
  regions.flatMap fun r =>
    find_unattached_volumes r (env r).vols ++
      find_idle_elastic_ips r (env r).addrs

/-- Default sub-record for a resource the parsed analyses did not
cover. -/
def analysisNotAvailable : AiAnalysis :=
  ⟨.str "Unknown", .str "Analysis not available for this resource"⟩

/-- Sub-record written by the failed-parse branch of the merge step. -/
def failedParse : AiAnalysis :=
  ⟨.str "Unknown", .str "Failed to parse AI analysis"⟩

/-- Sub-record written on total AI failure. -/
def aiUnavailable : AiAnalysis :=
  ⟨.str "Unknown", .str "AI analysis unavailable - check Bedrock model access"⟩

/-- Overwrite the ai_analysis of a record with the failed-parse
default, as the except branch of the merge does for every record. -/
def setFailed (z : Zombie) : Zombie :=
  withAi z (some failedParse)

/-- JSON-extraction step of the merge: locate the first opening brace
and the last closing brace and slice the text between them, failing
(the raised ValueError) when either is absent. A slice whose end lies
before its start yields the empty string, exactly as the Python slice
does, and the empty string then fails to parse. -/
def extractJsonStr (text : String) : Option String :=
  let cs := text.toList
  match cs.findIdx? (fun c => c = '\x7b'),
      cs.reverse.findIdx? (fun c => c = '\x7d') with
  | some s, some rj =>
    let e := cs.length - rj
    some (String.mk ((cs.drop s).take (e - s)))
  | _, _ => none

/-- Coerce a Json value to the integer Python arithmetic would use:
numbers are themselves and booleans are 0 or 1 (Python bool is a
subclass of int); anything else makes the subtraction in the merge loop
raise. -/
def jsonAsInt : Json → Option Int
  | .num n => some n
  | .bool b => some (if b then 1 else 0)
  | _ => none

/-- Update the record at one position with a parsed risk_score and
reason; positions past the end leave the list unchanged (the merge
checks bounds before calling this). -/
def updateAi (rs re : Json) : List Zombie → Nat → List Zombie
  | [], _ => []
  | z :: zs, 0 => withAi z (some ⟨rs, re⟩) :: zs
  | z :: zs, n + 1 => z :: updateAi rs re zs n

/-- Process one entry of the analyses array against the current record
list, following the loop body of ZombieHunter._merge_analysis: the
entry must index like a dictionary and hold an integer-like
resource_number, the 1-based position is bounds-checked, and only then
are the risk_score and reason keys read; a missing key or wrong shape
raises, an out-of-bounds entry is skipped silently. -/
def applyOne (zs : List Zombie) (e : Json) : Except Unit (List Zombie) :=
  match e with
  | .obj fs =>
    match objGet fs "resource_number" with
    | some v =>
      match jsonAsInt v with
      | some n =>
        if 0 ≤ n - 1 ∧ n - 1 < (zs.length : Int) then
          match objGet fs "risk_score", objGet fs "reason" with
          | some r, some re => .ok (updateAi r re zs (n - 1).toNat)
          | _, _ => .error ()
        else .ok zs
      | none => .error ()
    | none => .error ()
  | _ => .error ()

/-- Run the merge loop over the analyses entries. On an entry that
raises, the error carries the record list as mutated so far, since the
Python loop mutates in place and the exception handler sees the partial
state. -/
def applyAnalyses : List Zombie → List Json → Except (List Zombie) (List Zombie)
  | zs, [] => .ok zs
  | zs, e :: rest =>
    match applyOne zs e with
    | .ok zs1 => applyAnalyses zs1 rest
    | .error _ => .error zs

/-- Obtain the iterable of analyses entries from the parsed document:
the document must index like a dictionary, the analyses key defaults to
the empty list, and a non-list value raises on iteration except for an
empty string or empty dictionary, which iterate to nothing. -/
def getAnalyses (data : Json) : Except Unit (List Json) :=
  match data with
  | .obj fs =>
    match objGet fs "analyses" with
    | none => .ok []
    | some (.arr xs) => .ok xs
    | some (.str s) => if s.isEmpty then .ok [] else .error ()
    | some (.obj gs) => if gs.isEmpty then .ok [] else .error ()
    | some _ => .error ()
  | _ => .error ()

/-- Fill-in step after a successful merge loop: every record still
lacking an ai_analysis gets the default not-available sub-record. -/
def fillDefaults (zs : List Zombie) : List Zombie :=
  zs.map fun z =>
    match z.ai_analysis with
    | none => withAi z (some analysisNotAvailable)
    | some _ => z

/-- Continuation of the merge after the loop ran: a completed loop is
default-filled, an interrupted one lands in the except branch with its
partial state and every record is overwritten with the failed-parse
default. -/
def mergeApplied (r : Except (List Zombie) (List Zombie)) : List Zombie :=
  match r with
  | .ok zs => fillDefaults zs
  | .error zs1 => zs1.map setFailed

/-- Continuation of the merge after the analyses entries were fetched
from the parsed document: failure to iterate them is the except branch,
otherwise the loop runs. -/
def mergeParsed (zombies : List Zombie) (r : Except Unit (List Json)) :
    List Zombie :=
  match r with
  | .error _ => zombies.map setFailed
  | .ok es => mergeApplied (applyAnalyses zombies es)

/-- Continuation of the merge after json.loads: a parse failure is the
except branch, otherwise the analyses are fetched and applied. -/
def mergeLoaded (zombies : List Zombie) (r : Option Json) : List Zombie :=
  match r with
  | none => zombies.map setFailed
  | some data => mergeParsed zombies (getAnalyses data)

/-- Continuation of the merge after the brace scan: a missing brace is
the raised ValueError, caught by the except branch, otherwise the
sliced text is parsed. -/
def mergeExtracted (zombies : List Zombie) : Option String → List Zombie
  | none => zombies.map setFailed
  | some s => mergeLoaded zombies (jsonParse s)

/-- ZombieHunter._merge_analysis: extract a JSON object from the model
response text, parse it, apply every analyses entry by position, and
default-fill the rest; any failure along the way lands in the except
branch, which overwrites the ai_analysis of every record with the
failed-parse default. -/
def merge_analysis (zombies : List Zombie) (analysis_text : String) :
    List Zombie :=
  mergeExtracted zombies (extractJsonStr analysis_text)

/-- Outcome of one invoke-model round trip, body decoding included: a
ClientError with its error code, a successfully extracted response
text, or any other exception (unexpected failure, malformed body,
missing content field). -/
inductive CallOutcome where
  | clientError : String → CallOutcome
  | success : String → CallOutcome
  | otherFailure : CallOutcome

/-- The fixed ordered list of model identifiers the analyzer tries. -/
def models_to_try : List String :=
  ["anthropic.claude-3-haiku-20240307-v1:0",
   "anthropic.claude-3-5-sonnet-20241022-v2:0",
   "anthropic.claude-3-sonnet-20240229-v1:0",
   "anthropic.claude-instant-v1"]

/-- Error codes treated as model-unavailable: the loop falls through to
the next identifier on these and re-raises anything else. -/
def retryableCodes : List String :=
  ["ResourceNotFoundException", "ValidationException", "AccessDeniedException"]

/-- The model-fallback loop of ZombieHunter.analyze_with_ai: walk the
identifier list in order, return the first successfully extracted
response text, fall through on a retryable ClientError, and abort (the
re-raise, or the raise after exhaustion) otherwise. -/
def tryModels (outcome : String → CallOutcome) : List String → Except Unit String
  | [] => .error ()
  | m :: rest =>
    match outcome m with
    | .success t => .ok t
    | .clientError c =>
      if retryableCodes.contains c then tryModels outcome rest
      else .error ()
    | .otherFailure => .error ()

/-- Continuation of ZombieHunter.analyze_with_ai after the fallback
loop, which runs over an explicit inference-service environment: a
response is merged, and total failure (abort or exhaustion, caught by
the outer handler) annotates every record with the unavailable default.
The empty-list early return happens before any call is made. Totality
of these functions is the model of the never-raises-past-its-boundary
contract. -/
def analyzeFetched (zombies : List Zombie) : Except Unit String → List Zombie
  | .ok text => merge_analysis zombies text
  | .error _ => zombies.map fun z => withAi z (some aiUnavailable)

/-- ZombieHunter.analyze_with_ai assembled: the empty-list early return,
then the fallback loop feeding the continuation above. -/
def analyze_with_ai (outcome : String → CallOutcome)
    (zombies : List Zombie) : List Zombie :=
  if zombies.isEmpty then zombies
  else analyzeFetched zombies (tryModels outcome models_to_try)

/-- Risk value displayed for a record: the risk_score of its
ai_analysis sub-record, defaulting to the string Unknown when no
sub-record is attached. -/
def riskOf (z : Zombie) : Json :=
  match z.ai_analysis with
  | none => .str "Unknown"
  | some a => a.risk_score

/-- Reason displayed for a record, with the no-analysis default. -/
def reasonOf (z : Zombie) : Json :=
  match z.ai_analysis with
  | none => .str "No analysis available"
  | some a => a.reason

/-- Counters of the four risk buckets kept by both presenters. -/
structure RiskCounts where
  low : Nat
  medium : Nat
  high : Nat
  unknown : Nat
deriving Repr

/-- Increment the bucket named by a risk value. The Python counter
dictionary is indexed directly, so any risk value other than the four
bucket names raises a KeyError; that exit is the none result. -/
def bumpRisk (c : RiskCounts) : Json → Option RiskCounts
  | .str "Low" => some { c with low := c.low + 1 }
  | .str "Medium" => some { c with medium := c.medium + 1 }
  | .str "High" => some { c with high := c.high + 1 }
  | .str "Unknown" => some { c with unknown := c.unknown + 1 }
  | _ => none

/-- Summary line printed after the table: the accumulated total cost
and the per-bucket counts. -/
structure TableSummary where
  total_cost : ℚ
  counts : RiskCounts
deriving Repr

/-- Result of the table presenter: the early-exit message for an empty
list, a completed render with its summary, or an uncaught exception
from the row loop. -/
inductive DisplayResult where
  | empty_message : DisplayResult
  | printed : TableSummary → DisplayResult
  | error : DisplayResult
deriving Repr

/-- Row loop of ZombieHunter.display_table: per record, add its cost
to the running total, bump the bucket counter indexed by its risk value
(raising on an unexpected value), and read its reason, whose length is
taken for truncation and therefore raises on a non-string value. -/
def displayGo : List Zombie → ℚ → RiskCounts → DisplayResult
  | [], total, counts => .printed ⟨total, counts⟩
  | z :: zs, total, counts =>
    let total1 := total + z.cost_estimate
    match bumpRisk counts (riskOf z) with
    | none => .error
    | some counts1 =>
      match reasonOf z with
      | .str _ => displayGo zs total1 counts1
      | _ => .error

/-- ZombieHunter.display_table: an empty list prints the celebratory
message and returns before any summary computation; otherwise the row
loop runs and, when it completes, the summary is printed. -/
def display_table (zombies : List Zombie) : DisplayResult :=
  if zombies.isEmpty then .empty_message
  else displayGo zombies 0 ⟨0, 0, 0, 0⟩

/-- Sum of the cost estimates of a record list. -/
def sumCosts : List Zombie → ℚ
  | [] => 0
  | z :: zs => z.cost_estimate + sumCosts zs

/-- Count of records whose displayed risk equals the given bucket
name. -/
def riskCount (s : String) : List Zombie → Nat
  | [] => 0
  | z :: zs =>
    (match riskOf z with
     | .str t => if t = s then 1 else 0
     | _ => 0) + riskCount s zs

/-- Format a nonnegative amount with two decimal places, the shape the
.2f conversion gives the monetary fields of the report. -/
def money2 (q : ℚ) : String :=
  toString ((roundHalfEven (q * 100)).toNat / 100) ++ "." ++
    (if (roundHalfEven (q * 100)).toNat % 100 < 10 then "0" else "") ++
    toString ((roundHalfEven (q * 100)).toNat % 100)

/-- Render a Json value the way the report interpolates it into text;
for the string values the program itself produces this is the string
content, and container or numeric values are shown through their
representation (a display approximation only, never load-bearing). -/
def jsonDisplay : Json → String
  | .str s => s
  | .num n => toString n
  | .bool b => if b then "True" else "False"
  | .null => "None"
  | v => toString (repr v)

/-- Title-case a resource kind after replacing underscores by spaces,
as replace and title do for the kinds the scanners emit. -/
def titleCase (s : String) : String :=
  String.intercalate " " (((s.replace "_" " ").splitOn " ").map fun w =>
    match w.toList with
    | [] => ""
    | c :: cs => String.mk (c.toUpper :: cs.map Char.toLower))

/-- Fixed heading and summary block of the markdown report. -/
def reportHeader (timestamp : String) (zombies : List Zombie) : String :=
  "# Zombie Hunter Report\nGenerated on: " ++ timestamp ++
    "\n\n## Summary\n- **Total Resources Found:** " ++
    toString zombies.length ++
    "\n- **Estimated Monthly Cost:** $" ++ money2 (sumCosts zombies) ++
    "\n\n"

/-- Clean-account message written when no resources were found. -/
def cleanMessage : String :=
  "🎉 **No zombie resources found!** Your AWS account is clean.\n"

/-- Risk-breakdown section of the report, with the table heading that
follows it. -/
def riskBreakdown (c : RiskCounts) : String :=
  "## Risk Breakdown\n- 🟢 **Low Risk:** " ++ toString c.low ++
    " resources\n- 🟡 **Medium Risk:** " ++ toString c.medium ++
    " resources  \n- 🔴 **High Risk:** " ++ toString c.high ++
    " resources\n- ⚪ **Unknown Risk:** " ++ toString c.unknown ++
    " resources\n\n## Detailed Resources\n\n" ++
    "| Resource Type | Resource ID | Region | Monthly Cost | Risk | AI Analysis |\n" ++
    "|---------------|-------------|---------|--------------|------|-------------|\n"

/-- Emoji shown next to a risk value, with the default for anything
outside the four buckets. -/
def riskEmoji (risk : Json) : String :=
  match risk with
  | .str "Low" => "🟢"
  | .str "Medium" => "🟡"
  | .str "High" => "🔴"
  | _ => "⚪"

/-- One row of the detailed-resources table. -/
def reportRow (z : Zombie) : String :=
  "| " ++ titleCase z.resource_type ++ " | `" ++ z.resource_id ++
    "` | " ++ z.region ++ " | $" ++ money2 z.cost_estimate ++ " | " ++
    riskEmoji (riskOf z) ++ " " ++ jsonDisplay (riskOf z) ++ " | " ++
    jsonDisplay (reasonAvail z) ++ " |\n"
where
  reasonAvail (z : Zombie) : Json := reasonOf z

/-- Recommendation sections, one per risk bucket. -/
def recommendations (c : RiskCounts) : String :=
  "\n\n## Recommendations\n\n### 🟢 Low Risk Resources (" ++
    toString c.low ++
    ")\nThese resources appear safe to delete. Consider removing them to reduce costs.\n\n### 🟡 Medium Risk Resources (" ++
    toString c.medium ++
    ")  \nReview these resources carefully. Check with resource owners before deletion.\n\n### 🔴 High Risk Resources (" ++
    toString c.high ++
    ")\n**DO NOT DELETE** these resources without thorough investigation. They may be critical to production systems.\n\n### ⚪ Unknown Risk Resources (" ++
    toString c.unknown ++
    ")\nAI analysis was not available for these resources. Manual review recommended.\n\n---\n*Report generated by Zombie Hunter CLI tool*\n"

/-- Count the buckets over a whole list, failing as the report loop
does when some risk value lies outside the four buckets. -/
def countRisks : List Zombie → RiskCounts → Option RiskCounts
  | [], c => some c
  | z :: zs, c =>
    match bumpRisk c (riskOf z) with
    | some c1 => countRisks zs c1
    | none => none

/-- ZombieHunter.generate_markdown_report as the text it writes: the
header and summary block always appear; an empty list is followed only
by the clean-account message, and a non-empty list by the breakdown,
the per-resource table, and the recommendation sections. The none
result is the KeyError escaping the bucket-count loop. -/
def generate_markdown_report (zombies : List Zombie)
    (timestamp : String) : Option String :=
  if zombies.isEmpty then
    some (reportHeader timestamp zombies ++ cleanMessage)
  else
    match countRisks zombies ⟨0, 0, 0, 0⟩ with
    | none => none
    | some c =>
      some (reportHeader timestamp zombies ++ riskBreakdown c ++
        String.join (zombies.map reportRow) ++ recommendations c)

/-- State carried by a merge-loop result, whether it completed or was
interrupted. -/
def exState : Except (List Zombie) (List Zombie) → List Zombie
  | .ok zs => zs
  | .error zs => zs

/-- Two record lists agree except possibly in the ai_analysis field of
each position. -/
def sameButAi (zs zs' : List Zombie) : Prop :=
  ∀ p : Nat, ∃ a : Option AiAnalysis,
    zs'[p]? = (zs[p]?).map fun z => withAi z a

theorem sameButAi_refl (zs : List Zombie) : sameButAi zs zs := by
  intro p
  match h : zs[p]? with
  | none => exact ⟨none, by simp [h]⟩
  | some z => exact ⟨z.ai_analysis, by simp [h, withAi]⟩

theorem sameButAi_trans {zs1 zs2 zs3 : List Zombie}
    (h12 : sameButAi zs1 zs2) (h23 : sameButAi zs2 zs3) :
    sameButAi zs1 zs3 := by
  intro p
  obtain ⟨a, ha⟩ := h12 p
  obtain ⟨b, hb⟩ := h23 p
  refine ⟨b, ?_⟩
  rw [hb, ha]
  match zs1[p]? with
  | none => rfl
  | some z => rfl

theorem updateAi_getElem? (rs re : Json) :
    ∀ (zs : List Zombie) (i p : Nat),
      (updateAi rs re zs i)[p]? =
        if p = i then (zs[p]?).map (fun z => withAi z (some ⟨rs, re⟩))
        else zs[p]? := by
  intro zs
  induction zs with
  | nil => intro i p; simp [updateAi]
  | cons z t ih =>
    intro i p
    match i, p with
    | 0, 0 => simp [updateAi]
    | 0, q + 1 => simp [updateAi]
    | j + 1, 0 => simp [updateAi]
    | j + 1, q + 1 =>
      have := ih j q
      simpa [updateAi, Nat.succ_inj] using this

theorem sameButAi_updateAi (rs re : Json) (zs : List Zombie) (i : Nat) :
    sameButAi zs (updateAi rs re zs i) := by
  intro p
  rw [updateAi_getElem?]
  by_cases h : p = i
  · exact ⟨some ⟨rs, re⟩, by simp [h]⟩
  · simp only [h, if_false]
    exact (sameButAi_refl zs) p

theorem sameButAi_length {zs zs' : List Zombie} (h : sameButAi zs zs') :
    zs'.length = zs.length := by
  apply Nat.le_antisymm
  · obtain ⟨a, ha⟩ := h zs.length
    rw [List.getElem?_eq_none (Nat.le_refl _)] at ha
    simp only [Option.map_none'] at ha
    exact List.getElem?_eq_none_iff.mp ha
  · obtain ⟨a, ha⟩ := h zs'.length
    rw [List.getElem?_eq_none (Nat.le_refl _)] at ha
    have : zs[zs'.length]? = none := by
      match hx : zs[zs'.length]? with
      | none => rfl
      | some z => rw [hx] at ha; simp at ha
    exact List.getElem?_eq_none_iff.mp this

theorem sameButAi_map_setFailed {zs zs' : List Zombie}
    (h : sameButAi zs zs') : zs'.map setFailed = zs.map setFailed := by
  apply List.ext_getElem?
  intro p
  rw [List.getElem?_map, List.getElem?_map]
  obtain ⟨a, ha⟩ := h p
  rw [ha]
  match zs[p]? with
  | none => rfl
  | some z => rfl

theorem applyOne_ok_shape (zs : List Zombie) (e : Json) (zs1 : List Zombie)
    (he : applyOne zs e = .ok zs1) :
    zs1 = zs ∨ ∃ r re i, zs1 = updateAi r re zs i := by
  unfold applyOne at he
  repeat' split at he
  all_goals first
    | (injection he with h2; exact Or.inr ⟨_, _, _, h2.symm⟩)
    | (injection he with h2; exact Or.inl h2.symm)
    | simp at he

theorem applyAnalyses_sameButAi :
    ∀ (es : List Json) (zs : List Zombie),
      sameButAi zs (exState (applyAnalyses zs es)) := by
  intro es
  induction es with
  | nil => intro zs; exact sameButAi_refl zs
  | cons e rest ih =>
    intro zs
    have hunf : applyAnalyses zs (e :: rest) =
        match applyOne zs e with
        | .ok zs1 => applyAnalyses zs1 rest
        | .error _ => .error zs := rfl
    rw [hunf]
    cases he : applyOne zs e with
    | error u => exact sameButAi_refl zs
    | ok zs1 =>
      have h1 : sameButAi zs zs1 := by
        rcases applyOne_ok_shape zs e zs1 he with h | ⟨r, re, i, h⟩
        · exact h ▸ sameButAi_refl zs
        · exact h ▸ sameButAi_updateAi r re zs i
      exact sameButAi_trans h1 (ih zs1)

theorem fillDefaults_isSome (zs : List Zombie) :
    ∀ z ∈ fillDefaults zs, z.ai_analysis.isSome := by
  intro z hz
  rcases List.mem_map.mp hz with ⟨w, _, rfl⟩
  match h : w.ai_analysis with
  | none => simp [h, withAi]
  | some a => simp [h]

theorem setFailed_isSome (zs : List Zombie) :
    ∀ z ∈ zs.map setFailed, z.ai_analysis.isSome := by
  intro z hz
  rcases List.mem_map.mp hz with ⟨w, _, rfl⟩
  simp [setFailed, withAi]

theorem exState_ok (zs : List Zombie) : exState (.ok zs) = zs := rfl

theorem exState_error (zs : List Zombie) : exState (.error zs) = zs := rfl

theorem mergeParsed_length (zs : List Zombie) (r : Except Unit (List Json)) :
    (mergeParsed zs r).length = zs.length := by
  cases r with
  | error u => simp [mergeParsed]
  | ok es =>
    have h := applyAnalyses_sameButAi es zs
    cases happ : applyAnalyses zs es with
    | error zs1 =>
      rw [happ, exState_error] at h
      simp only [mergeParsed, mergeApplied, happ, List.length_map]
      exact sameButAi_length h
    | ok zs2 =>
      rw [happ, exState_ok] at h
      simp only [mergeParsed, mergeApplied, happ, fillDefaults,
        List.length_map]
      exact sameButAi_length h

theorem merge_analysis_length (zs : List Zombie) (t : String) :
    (merge_analysis zs t).length = zs.length := by
  unfold merge_analysis
  cases extractJsonStr t with
  | none => simp [mergeExtracted]
  | some s =>
    simp only [mergeExtracted]
    cases jsonParse s with
    | none => simp [mergeLoaded]
    | some data =>
      simp only [mergeLoaded]
      exact mergeParsed_length zs (getAnalyses data)

theorem mergeParsed_isSome (zs : List Zombie) (r : Except Unit (List Json)) :
    ∀ z ∈ mergeParsed zs r, z.ai_analysis.isSome := by
  cases r with
  | error u => exact setFailed_isSome zs
  | ok es =>
    cases happ : applyAnalyses zs es with
    | error zs1 =>
      simp only [mergeParsed, mergeApplied, happ]
      exact setFailed_isSome zs1
    | ok zs2 =>
      simp only [mergeParsed, mergeApplied, happ]
      exact fillDefaults_isSome zs2

theorem merge_analysis_isSome (zs : List Zombie) (t : String) :
    ∀ z ∈ merge_analysis zs t, z.ai_analysis.isSome := by
  unfold merge_analysis
  cases extractJsonStr t with
  | none => exact setFailed_isSome zs
  | some s =>
    simp only [mergeExtracted]
    cases jsonParse s with
    | none => exact setFailed_isSome zs
    | some data =>
      simp only [mergeLoaded]
      exact mergeParsed_isSome zs (getAnalyses data)

theorem merge_analysis_unparseable (zs : List Zombie) (t : String)
    (h : match extractJsonStr t with
      | none => True
      | some s => jsonParse s = none) :
    merge_analysis zs t = zs.map setFailed := by
  unfold merge_analysis
  cases hx : extractJsonStr t with
  | none => rfl
  | some s =>
    rw [hx] at h
    simp only [mergeExtracted, h, mergeLoaded]

theorem merge_analysis_loop_error (zs : List Zombie) (t s : String)
    (data : Json) (es : List Json) (zs1 : List Zombie)
    (hx : extractJsonStr t = some s) (hp : jsonParse s = some data)
    (hg : getAnalyses data = .ok es)
    (ha : applyAnalyses zs es = .error zs1) :
    merge_analysis zs t = zs.map setFailed := by
  unfold merge_analysis
  rw [hx]
  simp only [mergeExtracted, hp, mergeLoaded, hg, mergeParsed, ha,
    mergeApplied]
  have h := applyAnalyses_sameButAi es zs
  rw [ha, exState_error] at h
  exact sameButAi_map_setFailed h

/-- Fields of a wellformed analyses entry: an integer-like
resource_number together with the risk_score and reason values, read
through the same lookups the merge loop performs. -/
def entryFields (e : Json) : Option (Int × Json × Json) :=
  match e with
  | .obj fs =>
    match objGet fs "resource_number" with
    | some v =>
      match jsonAsInt v with
      | some n =>
        match objGet fs "risk_score", objGet fs "reason" with
        | some r, some re => some (n, r, re)
        | _, _ => none
      | none => none
    | none => none
  | _ => none

/-- Assignment a single entry makes to 0-based position p, if any. -/
def assignOf (p : Nat) (e : Json) : Option (Json × Json) :=
  match entryFields e with
  | some (n, r, re) => if n = (p : Int) + 1 then some (r, re) else none
  | none => none

/-- Assignment that survives at position p after the whole analyses
list is processed in order: the last entry addressing p wins, so the
tail is consulted first. -/
def finalAi (p : Nat) : List Json → Option (Json × Json)
  | [] => none
  | e :: rest => (finalAi p rest).orElse fun _ => assignOf p e

theorem withAi_withAi (z : Zombie) (a b : Option AiAnalysis) :
    withAi (withAi z a) b = withAi z b := rfl

theorem applyOne_wf (zs : List Zombie) (e : Json) (n : Int) (r re : Json)
    (hf : entryFields e = some (n, r, re)) :
    applyOne zs e = .ok (if 0 ≤ n - 1 ∧ n - 1 < (zs.length : Int)
      then updateAi r re zs (n - 1).toNat else zs) := by
  match e with
  | .null | .bool _ | .num _ | .str _ | .arr _ => simp [entryFields] at hf
  | .obj fs =>
    rcases h1 : objGet fs "resource_number" with _ | v
    · simp [entryFields, h1] at hf
    · rcases h2 : jsonAsInt v with _ | m
      · simp [entryFields, h1, h2] at hf
      · rcases h3 : objGet fs "risk_score" with _ | r0
        · simp [entryFields, h1, h2, h3] at hf
        · rcases h4 : objGet fs "reason" with _ | re0
          · simp [entryFields, h1, h2, h3, h4] at hf
          · simp only [entryFields, h1, h2, h3, h4, Option.some.injEq,
              Prod.mk.injEq] at hf
            obtain ⟨hn, hr, hre⟩ := hf
            subst hn; subst hr; subst hre
            have hred : applyOne zs (.obj fs) =
                if 0 ≤ m - 1 ∧ m - 1 < (zs.length : Int)
                then .ok (updateAi r0 re0 zs (m - 1).toNat)
                else .ok zs := by
              simp only [applyOne, h1, h2, h3, h4]
            by_cases hb : 0 ≤ m - 1 ∧ m - 1 < (zs.length : Int)
            · rw [hred, if_pos hb, if_pos hb]
            · rw [hred, if_neg hb, if_neg hb]

theorem applyAnalyses_wf (es : List Json) :
    ∀ zs : List Zombie, (∀ e ∈ es, (entryFields e).isSome) →
    ∃ zs2, applyAnalyses zs es = .ok zs2 ∧
      ∀ p : Nat, zs2[p]? = (zs[p]?).map fun o =>
        match finalAi p es with
        | some x => withAi o (some ⟨x.1, x.2⟩)
        | none => o := by
  induction es with
  | nil =>
    intro zs _
    refine ⟨zs, rfl, fun p => ?_⟩
    simp [finalAi]
  | cons e rest ih =>
    intro zs hwf
    have hhead := hwf e (List.mem_cons_self e rest)
    rw [Option.isSome_iff_exists] at hhead
    obtain ⟨⟨n, r, re⟩, hf⟩ := hhead
    have happ := applyOne_wf zs e n r re hf
    obtain ⟨zs2, h2, hprop⟩ :=
      ih (if 0 ≤ n - 1 ∧ n - 1 < (zs.length : Int)
          then updateAi r re zs (n - 1).toNat else zs)
        (fun e2 he2 => hwf e2 (List.mem_cons_of_mem e he2))
    refine ⟨zs2, ?_, ?_⟩
    · simp only [applyAnalyses, happ]
      exact h2
    · intro p
      rw [hprop p]
      simp only [finalAi]
      by_cases hb : 0 ≤ n - 1 ∧ n - 1 < (zs.length : Int)
      · rw [if_pos hb, updateAi_getElem?]
        by_cases hp : p = (n - 1).toNat
        · rw [if_pos hp]
          cases zs[p]? with
          | none => simp
          | some z =>
            simp only [Option.map_some']
            rcases hrest : finalAi p rest with _ | x
            · have hn : n = (p : Int) + 1 := by omega
              rw [Option.none_orElse']
              simp [assignOf, hf, hn]
            · rfl
        · rw [if_neg hp]
          cases zs[p]? with
          | none => simp
          | some z =>
            simp only [Option.map_some']
            rcases hrest : finalAi p rest with _ | x
            · have hn : ¬ n = (p : Int) + 1 := by omega
              rw [Option.none_orElse']
              simp [assignOf, hf, if_neg hn]
            · rfl
      · rw [if_neg hb]
        by_cases hplen : p < zs.length
        · have hn : ¬ n = (p : Int) + 1 := by omega
          cases zs[p]? with
          | none => simp
          | some z =>
            simp only [Option.map_some']
            rcases hrest : finalAi p rest with _ | x
            · rw [Option.none_orElse']
              simp [assignOf, hf, if_neg hn]
            · rfl
        · rw [List.getElem?_eq_none (Nat.le_of_not_lt hplen)]
          simp

/-- Integer resource numbers carried by the wellformed entries of an
analyses list, in order. -/
def entryNums (es : List Json) : List Int :=
  es.filterMap fun e => (entryFields e).map fun t => t.1

theorem finalAi_none (p : Nat) (es : List Json)
    (h : ∀ e ∈ es, ∀ n r re, entryFields e = some (n, r, re) →
      n ≠ (p : Int) + 1) :
    finalAi p es = none := by
  induction es with
  | nil => rfl
  | cons e rest ih =>
    have hrest := ih fun e2 he2 => h e2 (List.mem_cons_of_mem e he2)
    simp only [finalAi, hrest, Option.none_orElse']
    rcases hf : entryFields e with _ | ⟨n, r, re⟩
    · simp [assignOf, hf]
    · simp [assignOf, hf, h e (List.mem_cons_self e rest) n r re hf]

theorem finalAi_mem (p : Nat) (es : List Json) (x : Json × Json)
    (h : finalAi p es = some x) :
    ∃ e ∈ es, entryFields e = some ((p : Int) + 1, x.1, x.2) := by
  induction es with
  | nil => simp [finalAi] at h
  | cons e rest ih =>
    rw [finalAi] at h
    rcases hrest : finalAi p rest with _ | y
    · rw [hrest, Option.none_orElse'] at h
      rcases hf : entryFields e with _ | ⟨n, r, re⟩
      · simp [assignOf, hf] at h
      · simp only [assignOf, hf] at h
        by_cases hn : n = (p : Int) + 1
        · rw [if_pos hn] at h
          refine ⟨e, List.mem_cons_self e rest, ?_⟩
          rw [hf, hn]
          cases h
          rfl
        · rw [if_neg hn] at h
          simp at h
    · rw [hrest, Option.some_orElse'] at h
      cases h
      obtain ⟨e2, he2, hf2⟩ := ih hrest
      exact ⟨e2, List.mem_cons_of_mem e he2, hf2⟩

theorem finalAi_of_mem (es : List Json) (e : Json) (n : Int) (r re : Json)
    (he : e ∈ es) (hf : entryFields e = some (n, r, re))
    (hnd : (entryNums es).Nodup) (p : Nat) (hp : (p : Int) + 1 = n) :
    finalAi p es = some (r, re) := by
  induction es with
  | nil => cases he
  | cons e0 rest ih =>
    rcases List.mem_cons.mp he with rfl | he2
    · have hnums : entryNums (e :: rest) = n :: entryNums rest := by
        simp [entryNums, List.filterMap_cons, hf]
      rw [hnums] at hnd
      have hrest : finalAi p rest = none := by
        rcases hx : finalAi p rest with _ | x
        · rfl
        · exfalso
          obtain ⟨e2, he2, hf2⟩ := finalAi_mem p rest x hx
          have hmem : n ∈ entryNums rest := by
            rw [← hp]
            exact List.mem_filterMap.mpr ⟨e2, he2, by rw [hf2]; rfl⟩
          exact (List.nodup_cons.mp hnd).1 hmem
      simp only [finalAi, hrest, Option.none_orElse']
      simp [assignOf, hf, hp]
    · have hnd2 : (entryNums rest).Nodup := by
        rcases hf0 : entryFields e0 with _ | t
        · have : entryNums (e0 :: rest) = entryNums rest := by
            simp [entryNums, List.filterMap_cons, hf0]
          rwa [this] at hnd
        · have : entryNums (e0 :: rest) = t.1 :: entryNums rest := by
            simp [entryNums, List.filterMap_cons, hf0]
          rw [this] at hnd
          exact (List.nodup_cons.mp hnd).2
      rw [finalAi, ih he2 hnd2, Option.some_orElse']

theorem fillDefaults_getElem? (zs : List Zombie) (p : Nat) :
    (fillDefaults zs)[p]? = (zs[p]?).map fun z =>
      match z.ai_analysis with
      | none => withAi z (some analysisNotAvailable)
      | some _ => z := by
  unfold fillDefaults
  exact List.getElem?_map ..

theorem mem_of_getElem?_zombie {zs : List Zombie} {p : Nat} {z : Zombie}
    (h : zs[p]? = some z) : z ∈ zs := by
  obtain ⟨hlt, rfl⟩ := List.getElem?_eq_some.mp h
  exact List.getElem_mem ..

/-- The four bucket names the counter dictionary is keyed by. -/
def bucketNames : List String := ["Low", "Medium", "High", "Unknown"]

/-- A record the table row loop can process without raising: its
displayed risk is one of the four bucket names and its displayed
reason is a string. -/
def rowOk (z : Zombie) : Bool :=
  (match riskOf z with
   | .str t => bucketNames.contains t
   | _ => false) &&
  (match reasonOf z with
   | .str _ => true
   | _ => false)

theorem displayGo_ok :
    ∀ (zs : List Zombie) (total : ℚ) (c : RiskCounts),
    (∀ z ∈ zs, rowOk z = true) →
    displayGo zs total c = .printed ⟨total + sumCosts zs,
      ⟨c.low + riskCount "Low" zs, c.medium + riskCount "Medium" zs,
       c.high + riskCount "High" zs, c.unknown + riskCount "Unknown" zs⟩⟩ := by
  intro zs
  induction zs with
  | nil =>
    intro total c _
    simp [displayGo, sumCosts, riskCount]
  | cons z zs ih =>
    intro total c hok
    have hz := hok z (List.mem_cons_self z zs)
    rw [rowOk, Bool.and_eq_true] at hz
    obtain ⟨hz1, hz2⟩ := hz
    have htail := fun w hw => hok w (List.mem_cons_of_mem z hw)
    rcases hre : reasonOf z with _ | b | m | sre | xs | fs <;>
      rw [hre] at hz2 <;> simp at hz2
    rcases hr : riskOf z with _ | b | m | t | xs | fs <;>
      rw [hr] at hz1 <;> simp [bucketNames] at hz1
    have hsum : total + z.cost_estimate + sumCosts zs =
        total + sumCosts (z :: zs) := by
      rw [sumCosts]; ring
    rcases hz1 with rfl | rfl | rfl | rfl
    · have hstep : displayGo (z :: zs) total c =
          displayGo zs (total + z.cost_estimate) { c with low := c.low + 1 } := by
        simp [displayGo, bumpRisk, hr, hre]
      rw [hstep, ih _ _ htail, ← hsum]
      congr 1
      congr 1
      congr 1 <;> (simp [riskCount, hr]; try omega)
    · have hstep : displayGo (z :: zs) total c =
          displayGo zs (total + z.cost_estimate)
            { c with medium := c.medium + 1 } := by
        simp [displayGo, bumpRisk, hr, hre]
      rw [hstep, ih _ _ htail, ← hsum]
      congr 1
      congr 1
      congr 1 <;> (simp [riskCount, hr]; try omega)
    · have hstep : displayGo (z :: zs) total c =
          displayGo zs (total + z.cost_estimate)
            { c with high := c.high + 1 } := by
        simp [displayGo, bumpRisk, hr, hre]
      rw [hstep, ih _ _ htail, ← hsum]
      congr 1
      congr 1
      congr 1 <;> (simp [riskCount, hr]; try omega)
    · have hstep : displayGo (z :: zs) total c =
          displayGo zs (total + z.cost_estimate)
            { c with unknown := c.unknown + 1 } := by
        simp [displayGo, bumpRisk, hr, hre]
      rw [hstep, ih _ _ htail, ← hsum]
      congr 1
      congr 1
      congr 1 <;> (simp [riskCount, hr]; try omega)

/-- Sample volume record used to evaluate the theorems on concrete
inputs. -/
def zVol : Zombie :=
  { resource_type := "ebs_volume"
    resource_id := "vol-0abc"
    size := some 100
    public_ip := none
    region := "us-east-1"
    tags := [("Name", "data")]
    cost_estimate := estimate_ebs_cost 100 "gp3"
    ai_analysis := none }

/-- Sample elastic-IP record used to evaluate the theorems on concrete
inputs. -/
def zIp : Zombie :=
  { resource_type := "elastic_ip"
    resource_id := "eipalloc-1"
    size := none
    public_ip := some "3.3.3.3"
    region := "us-east-1"
    tags := []
    cost_estimate := estimate_eip_cost
    ai_analysis := none }

/-- Sample idle address: neither reference key present. -/
def addrIdle : Address := ⟨"eipalloc-1", "1.1.1.1", none, none, []⟩

/-- Sample in-use address: an InstanceId key is present. -/
def addrUsed : Address := ⟨"eipalloc-2", "2.2.2.2", some "i-123", none, []⟩

/-- Sample volume as returned by the volume-list call. -/
def vol1 : Volume := ⟨"vol-1", 100, "gp3", []⟩

/-- C1: For every non-empty resource list the AI risk analyzer returns,
without raising (the analyzer is a total function here, every
exceptional exit of the Python code being mapped to an explicit
branch), a list of the same length in which every record carries an
ai_analysis sub-record holding a risk score and a reason; an empty
input list is returned unchanged. -/
theorem analyze_with_ai_safe (outcome : String → CallOutcome)
    (zombies : List Zombie) :
    (analyze_with_ai outcome zombies).length = zombies.length ∧
    (zombies = [] → analyze_with_ai outcome zombies = zombies) ∧
    (zombies ≠ [] → ∀ z ∈ analyze_with_ai outcome zombies,
      z.ai_analysis.isSome) := by
  refine ⟨?_, ?_, ?_⟩
  · unfold analyze_with_ai
    by_cases hz : zombies.isEmpty
    · rw [if_pos hz]
    · rw [if_neg hz]
      cases tryModels outcome models_to_try with
      | ok t => exact merge_analysis_length zombies t
      | error u => simp [analyzeFetched]
  · intro h
    subst h
    rfl
  · intro hne
    unfold analyze_with_ai
    rw [if_neg (by simp [List.isEmpty_iff, hne])]
    cases tryModels outcome models_to_try with
    | ok t => exact merge_analysis_isSome zombies t
    | error u =>
      intro z hz
      rcases List.mem_map.mp hz with ⟨w, _, rfl⟩
      rfl

theorem analyze_with_ai_safe_witness :
    (analyze_with_ai (fun _ => .otherFailure) [zVol]).length = 1 ∧
    ∀ z ∈ analyze_with_ai (fun _ => .otherFailure) [zVol],
      z.ai_analysis.isSome := by
  have h := analyze_with_ai_safe (fun _ => .otherFailure) [zVol]
  exact ⟨h.1.trans rfl, h.2.2 (List.cons_ne_nil _ _)⟩

/-- C2: The estimated monthly volume cost is size times the rate-table
entry for the type, rounded to two decimals, and a type absent from
the table uses the default rate 0.10, which is exactly the entry the
table holds for gp2. -/
theorem estimate_ebs_cost_spec (S : Nat) (T : String) (r : ℚ)
    (h : pricing.lookup T = some r ∨
      (pricing.lookup T = none ∧ r = 0.10)) :
    estimate_ebs_cost S T = round2 ((S : ℚ) * r) ∧
    pricing.lookup "gp2" = some 0.10 := by
  refine ⟨?_, rfl⟩
  rcases h with h | ⟨h, rfl⟩
  · unfold estimate_ebs_cost
    rw [h, Option.getD_some]
  · unfold estimate_ebs_cost
    rw [h, Option.getD_none]

theorem estimate_ebs_cost_spec_witness :
    estimate_ebs_cost 100 "gp3" = round2 ((100 : ℚ) * 0.08) ∧
    pricing.lookup "gp2" = some 0.10 :=
  estimate_ebs_cost_spec 100 "gp3" 0.08 (Or.inl rfl)

/-- C3: On a successful address-list response, the scanner emits one
record per address that has neither an InstanceId nor a
NetworkInterfaceId key, exactly those, and every emitted record has
the flat cost estimate 3.65. -/
theorem find_idle_elastic_ips_spec (region : String)
    (addrs : List Address) :
    find_idle_elastic_ips region (.ok addrs) =
      (addrs.filter isIdle).map (eipRecord region) ∧
    (∀ a ∈ addrs, isIdle a = true →
      eipRecord region a ∈ find_idle_elastic_ips region (.ok addrs)) ∧
    (∀ z ∈ find_idle_elastic_ips region (.ok addrs),
      (∃ a ∈ addrs, isIdle a = true ∧ z = eipRecord region a) ∧
      z.cost_estimate = 3.65) := by
  refine ⟨rfl, ?_, ?_⟩
  · intro a ha hidle
    show eipRecord region a ∈ (addrs.filter isIdle).map (eipRecord region)
    exact List.mem_map_of_mem _ (List.mem_filter.mpr ⟨ha, hidle⟩)
  · intro z hz
    rcases List.mem_map.mp hz with ⟨a, ha, rfl⟩
    have hm := List.mem_filter.mp ha
    exact ⟨⟨a, hm.1, hm.2, rfl⟩, rfl⟩

theorem find_idle_elastic_ips_spec_witness :
    eipRecord "us-east-1" addrIdle ∈
      find_idle_elastic_ips "us-east-1" (.ok [addrIdle, addrUsed]) ∧
    ∀ z ∈ find_idle_elastic_ips "us-east-1" (.ok [addrIdle, addrUsed]),
      z.cost_estimate = 3.65 := by
  have h := find_idle_elastic_ips_spec "us-east-1" [addrIdle, addrUsed]
  exact ⟨h.2.1 addrIdle (List.mem_cons_self _ _) rfl,
    fun z hz => (h.2.2 z hz).2⟩

/-- C5: The fallback loop walks the fixed identifier list in order,
one inference request per identifier: a success returns its text, a
ClientError whose code is retryable falls through to the rest of the
list, any other ClientError or any other failure aborts, exhaustion
aborts, and an aborted attempt annotates every record with the
Unknown unavailable default. -/
theorem model_fallback_spec (outcome : String → CallOutcome)
    (zombies : List Zombie) (m : String) (rest : List String)
    (c t : String) (hz : zombies ≠ []) :
    (outcome m = .success t → tryModels outcome (m :: rest) = .ok t) ∧
    (outcome m = .clientError c → c ∈ retryableCodes →
      tryModels outcome (m :: rest) = tryModels outcome rest) ∧
    (outcome m = .clientError c → c ∉ retryableCodes →
      tryModels outcome (m :: rest) = .error ()) ∧
    (outcome m = .otherFailure → tryModels outcome (m :: rest) = .error ()) ∧
    tryModels outcome [] = .error () ∧
    (tryModels outcome models_to_try = .error () →
      analyze_with_ai outcome zombies =
        zombies.map fun z => withAi z (some aiUnavailable)) ∧
    retryableCodes =
      ["ResourceNotFoundException", "ValidationException",
       "AccessDeniedException"] := by
  have hcons : ∀ ms, tryModels outcome (m :: ms) =
      match outcome m with
      | .success t2 => .ok t2
      | .clientError c2 =>
        if retryableCodes.contains c2 then tryModels outcome ms
        else .error ()
      | .otherFailure => .error () := fun _ => rfl
  refine ⟨?_, ?_, ?_, ?_, rfl, ?_, rfl⟩
  · intro h
    rw [hcons, h]
  · intro h hc
    have hcon : retryableCodes.contains c = true := by
      simpa [List.contains] using List.elem_eq_true_of_mem hc
    rw [hcons, h]
    show (if retryableCodes.contains c then tryModels outcome rest
      else Except.error ()) = tryModels outcome rest
    simp only [hcon, if_true]
  · intro h hc
    have hcon : retryableCodes.contains c = false := by
      simp [List.contains, hc]
    rw [hcons, h]
    show (if retryableCodes.contains c then tryModels outcome rest
      else Except.error ()) = Except.error ()
    simp only [hcon, Bool.false_eq_true, if_false]
  · intro h
    rw [hcons, h]
  · intro h
    unfold analyze_with_ai
    rw [if_neg (by simp [List.isEmpty_iff, hz]), h]
    rfl

theorem model_fallback_spec_witness :
    tryModels (fun _ => CallOutcome.clientError "ValidationException")
        ["model-a"] =
      tryModels (fun _ => CallOutcome.clientError "ValidationException") [] ∧
    analyze_with_ai (fun _ => CallOutcome.clientError "ValidationException")
        [zVol] =
      [zVol].map fun z => withAi z (some aiUnavailable) := by
  have h := model_fallback_spec
    (fun _ => CallOutcome.clientError "ValidationException") [zVol]
    "model-a" [] "ValidationException" "unused-text"
    (List.cons_ne_nil _ _)
  exact ⟨h.2.1 rfl (by simp [retryableCodes]), h.2.2.2.2.2.1 rfl⟩

/-- C6: If the fallback loop succeeds but the response text holds no
parseable JSON object between its first opening brace and last closing
brace (for instance the literal text not json, which has no brace at
all), the analyzer returns every resource annotated with the Unknown
failed-parse default instead of failing. -/
theorem unparseable_response_spec (outcome : String → CallOutcome)
    (zombies : List Zombie) (text : String)
    (hz : zombies ≠ [])
    (hok : tryModels outcome models_to_try = .ok text)
    (hbad : match extractJsonStr text with
      | none => True
      | some s => jsonParse s = none) :
    analyze_with_ai outcome zombies = zombies.map setFailed ∧
    ∀ z ∈ analyze_with_ai outcome zombies,
      z.ai_analysis = some failedParse := by
  have h1 : analyze_with_ai outcome zombies = merge_analysis zombies text := by
    unfold analyze_with_ai
    rw [if_neg (by simp [List.isEmpty_iff, hz]), hok]
    rfl
  rw [h1, merge_analysis_unparseable zombies text hbad]
  refine ⟨rfl, ?_⟩
  intro z hzm
  rcases List.mem_map.mp hzm with ⟨w, _, rfl⟩
  rfl

theorem unparseable_response_spec_witness :
    analyze_with_ai (fun _ => CallOutcome.success "not json") [zVol, zIp] =
      [setFailed zVol, setFailed zIp] := by
  have h := unparseable_response_spec
    (fun _ => CallOutcome.success "not json") [zVol, zIp] "not json"
    (List.cons_ne_nil _ _) rfl trivial
  exact h.1.trans rfl

/-- Sample environment where every region answers both list calls. -/
def envA : String → RegionResp :=
  fun _ => ⟨.ok [vol1], .ok [addrIdle]⟩

/-- Sample environment equal to envA except that the volume-list call
of us-west-2 fails with a ClientError. -/
def envB : String → RegionResp :=
  fun r => if r = "us-west-2"
    then ⟨.error "AuthFailure", .ok [addrIdle]⟩
    else ⟨.ok [vol1], .ok [addrIdle]⟩

/-- C7: An API failure during the volume scan of one region yields
zero volume records from that region, while every other region and the
address scanner of the failing region itself contribute exactly what
they contribute under an environment where the call succeeds; the run
continues across the whole region list. -/
theorem volume_scan_isolation (regions : List String)
    (env env2 : String → RegionResp) (R : String) (e : String)
    (hothers : ∀ r, r ≠ R → env2 r = env r)
    (haddr : (env2 R).addrs = (env R).addrs)
    (hfail : (env2 R).vols = .error e) :
    find_unattached_volumes R (env2 R).vols = [] ∧
    hunt_zombies regions env2 = regions.flatMap fun r =>
      (if r = R then [] else find_unattached_volumes r (env r).vols) ++
        find_idle_elastic_ips r (env r).addrs := by
  constructor
  · rw [hfail]
    rfl
  · unfold hunt_zombies
    induction regions with
    | nil => rfl
    | cons r rs ih =>
      rw [List.flatMap_cons, List.flatMap_cons, ih]
      congr 1
      by_cases hr : r = R
      · subst hr
        rw [hfail, if_pos rfl, haddr]
        rfl
      · rw [hothers r hr, if_neg hr]

theorem volume_scan_isolation_witness :
    find_unattached_volumes "us-west-2" (envB "us-west-2").vols = [] ∧
    hunt_zombies ["us-east-1", "us-west-2"] envB =
      [volRecord "us-east-1" vol1, eipRecord "us-east-1" addrIdle,
       eipRecord "us-west-2" addrIdle] := by
  have h := volume_scan_isolation ["us-east-1", "us-west-2"] envA envB
    "us-west-2" "AuthFailure"
    (fun r hr => by simp [envA, envB, hr]) rfl rfl
  exact ⟨h.1, h.2.trans rfl⟩

/-- Sample wellformed first analyses entry. -/
def entryOne : Json :=
  .obj [("resource_number", .num 1), ("risk_score", .str "Low"),
    ("reason", .str "Test volume")]

/-- Sample wellformed second analyses entry. -/
def entryTwo : Json :=
  .obj [("resource_number", .num 2), ("risk_score", .str "High"),
    ("reason", .str "In use")]

/-- Sample wellformed two-entry response document. -/
def twoEntryJson : Json := .obj [("analyses", .arr [entryOne, entryTwo])]

/-- Sample wellformed two-entry response text. -/
def twoEntryText : String :=
  "\x7b\"analyses\": [\x7b\"resource_number\": 1, \"risk_score\": \"Low\", \"reason\": \"Test volume\"\x7d, \x7b\"resource_number\": 2, \"risk_score\": \"High\", \"reason\": \"In use\"\x7d]\x7d"

/-- C4: When the response parses, every analyses entry whose 1-based
resource_number is within bounds has its risk_score and reason
attached to the record at that position (the remaining fields of the
record unchanged), and every position no entry addresses receives the
not-available default. The resource numbers are assumed pairwise
distinct, as in any response honouring the requested schema; with
duplicates the last entry wins. -/
theorem merge_attaches_by_position (zombies : List Zombie) (t s : String)
    (data : Json) (es : List Json)
    (hz : ∀ z ∈ zombies, z.ai_analysis = none)
    (hx : extractJsonStr t = some s) (hl : jsonParse s = some data)
    (hg : getAnalyses data = .ok es)
    (hwf : ∀ e ∈ es, (entryFields e).isSome)
    (hnd : (entryNums es).Nodup) :
    (∀ e ∈ es, ∀ n r re, entryFields e = some (n, r, re) → 1 ≤ n →
      n ≤ (zombies.length : Int) →
      (merge_analysis zombies t)[(n - 1).toNat]? =
        (zombies[(n - 1).toNat]?).map fun o => withAi o (some ⟨r, re⟩)) ∧
    (∀ p : Nat, p < zombies.length →
      (∀ e ∈ es, ∀ n r re, entryFields e = some (n, r, re) →
        n ≠ (p : Int) + 1) →
      (merge_analysis zombies t)[p]? =
        (zombies[p]?).map fun o => withAi o (some analysisNotAvailable)) := by
  obtain ⟨zs2, happly, hpos⟩ := applyAnalyses_wf es zombies hwf
  have hmerge : merge_analysis zombies t = fillDefaults zs2 := by
    unfold merge_analysis
    rw [hx]
    simp only [mergeExtracted, hl, mergeLoaded, hg, mergeParsed, happly,
      mergeApplied]
  constructor
  · intro e he n r re hf h1 h2
    have hpn : (((n - 1).toNat : Int)) + 1 = n := by omega
    have hfin := finalAi_of_mem es e n r re he hf hnd (n - 1).toNat hpn
    rw [hmerge, fillDefaults_getElem?, hpos (n - 1).toNat]
    simp only [hfin, Option.map_map]
    cases zombies[(n - 1).toNat]? with
    | none => rfl
    | some o => rfl
  · intro p hplen hno
    have hfin := finalAi_none p es hno
    rw [hmerge, fillDefaults_getElem?, hpos p]
    simp only [hfin, Option.map_map]
    cases hzp : zombies[p]? with
    | none => rfl
    | some o =>
      have ho : o.ai_analysis = none := hz o (mem_of_getElem?_zombie hzp)
      simp [Function.comp, ho]

theorem merge_attaches_by_position_witness :
    (merge_analysis [zVol, zIp] twoEntryText)[0]? =
      some (withAi zVol (some ⟨.str "Low", .str "Test volume"⟩)) ∧
    (merge_analysis [zVol, zIp] twoEntryText)[1]? =
      some (withAi zIp (some ⟨.str "High", .str "In use"⟩)) := by
  have h := merge_attaches_by_position [zVol, zIp] twoEntryText
    twoEntryText twoEntryJson [entryOne, entryTwo]
    (by
      intro z hz
      rcases List.mem_cons.mp hz with rfl | hz2
      · rfl
      rcases List.mem_cons.mp hz2 with rfl | h3
      · rfl
      · cases h3)
    rfl rfl rfl
    (by
      intro e he
      rcases List.mem_cons.mp he with rfl | he2
      · rfl
      rcases List.mem_cons.mp he2 with rfl | h3
      · rfl
      · cases h3)
    (by decide)
  constructor
  · have h1 := h.1 entryOne (List.mem_cons_self _ _) 1 (.str "Low")
      (.str "Test volume") rfl (by decide) (by decide)
    exact h1.trans rfl
  · have h2 := h.1 entryTwo
      (List.mem_cons_of_mem _ (List.mem_cons_self _ _)) 2 (.str "High")
      (.str "In use") rfl (by decide) (by decide)
    exact h2.trans rfl

/-- Record carrying a risk score outside the four buckets, as an
unvalidated model response can produce. -/
def zCritical : Zombie :=
  withAi zVol (some ⟨.str "Critical", .str "model emitted a non-bucket score"⟩)

/-- C8 counterexample: a non-empty list whose record carries the risk
score Critical makes the table presenter raise (the counter dictionary
is indexed directly), so the presenter does not complete for every
non-empty resource list. -/
theorem display_table_unexpected_risk_error :
    [zCritical] ≠ [] ∧ display_table [zCritical] = .error :=
  ⟨List.cons_ne_nil _ _, rfl⟩

/-- Record with an attached High risk analysis. -/
def zHigh : Zombie := withAi zIp (some ⟨.str "High", .str "seems production"⟩)

/-- C8 (amended): for every non-empty resource list in which each
record displays a risk score among the four bucket names and a string
reason, the table presenter completes and prints the summary line
holding the total estimated monthly cost, equal to the sum of all cost
estimates, and the count of resources in each of the four buckets, all
four present even when zero. -/
theorem display_table_summary (zombies : List Zombie)
    (hne : zombies ≠ []) (hok : ∀ z ∈ zombies, rowOk z = true) :
    display_table zombies = .printed ⟨sumCosts zombies,
      ⟨riskCount "Low" zombies, riskCount "Medium" zombies,
       riskCount "High" zombies, riskCount "Unknown" zombies⟩⟩ := by
  unfold display_table
  rw [if_neg (by simp [List.isEmpty_iff, hne])]
  rw [displayGo_ok zombies 0 ⟨0, 0, 0, 0⟩ hok]
  simp

theorem display_table_summary_witness :
    display_table [zVol, zHigh] =
      .printed ⟨sumCosts [zVol, zHigh], ⟨0, 0, 1, 1⟩⟩ := by
  have h := display_table_summary [zVol, zHigh] (List.cons_ne_nil _ _)
    (by
      intro z hz
      rcases List.mem_cons.mp hz with rfl | hz2
      · rfl
      rcases List.mem_cons.mp hz2 with rfl | h3
      · rfl
      · cases h3)
  exact h.trans rfl

theorem roundHalfEven_zero : roundHalfEven 0 = 0 := by
  unfold roundHalfEven
  norm_num [show Rat.floor 0 = 0 from rfl]

theorem money2_zero : money2 0 = "0.00" := by
  unfold money2
  rw [show (0 : ℚ) * 100 = 0 from by norm_num, roundHalfEven_zero]
  rfl

/-- C9: On an empty resource list the table presenter returns with the
celebratory message before any summary computation, and the markdown
presenter writes the fixed header and summary block followed only by
the clean-account message, with none of the breakdown, table, or
recommendation sections. -/
theorem empty_list_presenters (timestamp : String) :
    display_table [] = .empty_message ∧
    generate_markdown_report [] timestamp =
      some (reportHeader timestamp [] ++ cleanMessage) ∧
    reportHeader timestamp [] =
      "# Zombie Hunter Report\nGenerated on: " ++ timestamp ++
        "\n\n## Summary\n- **Total Resources Found:** " ++ "0" ++
        "\n- **Estimated Monthly Cost:** $" ++ "0.00" ++ "\n\n" := by
  refine ⟨rfl, rfl, ?_⟩
  unfold reportHeader
  rw [show sumCosts [] = 0 from rfl, money2_zero]
  rfl

/-- Sample response text whose second entry lacks the reason key. -/
def noReasonText : String :=
  "\x7b\"analyses\": [\x7b\"resource_number\": 1, \"risk_score\": \"Low\", \"reason\": \"Test volume\"\x7d, \x7b\"resource_number\": 2, \"risk_score\": \"High\"\x7d]\x7d"

/-- Second analyses entry missing its reason key. -/
def entryNoReason : Json :=
  .obj [("resource_number", .num 2), ("risk_score", .str "High")]

/-- Parsed document whose second entry lacks the reason key. -/
def noReasonJson : Json := .obj [("analyses", .arr [entryOne, entryNoReason])]

/-- C10: If applying the parsed analyses fails partway through (here
an in-bounds entry lacking a key after earlier entries were applied),
the except branch overwrites the ai_analysis of every record with the
failed-parse default, so no partially merged annotation survives. -/
theorem merge_all_or_nothing (zombies : List Zombie) (t s : String)
    (data : Json) (es : List Json) (zs1 : List Zombie)
    (hx : extractJsonStr t = some s) (hp : jsonParse s = some data)
    (hg : getAnalyses data = .ok es)
    (ha : applyAnalyses zombies es = .error zs1) :
    merge_analysis zombies t = zombies.map setFailed ∧
    ∀ z ∈ merge_analysis zombies t, z.ai_analysis = some failedParse := by
  have h := merge_analysis_loop_error zombies t s data es zs1 hx hp hg ha
  refine ⟨h, ?_⟩
  rw [h]
  intro z hz
  rcases List.mem_map.mp hz with ⟨w, _, rfl⟩
  rfl

theorem merge_all_or_nothing_witness :
    merge_analysis [zVol, zIp] noReasonText =
      [setFailed zVol, setFailed zIp] := by
  have h := merge_all_or_nothing [zVol, zIp] noReasonText noReasonText
    noReasonJson [entryOne, entryNoReason]
    [withAi zVol (some ⟨.str "Low", .str "Test volume"⟩), zIp]
    rfl rfl rfl rfl
  exact h.1.trans rfl

end ZombieHunter
